import Mathlib

/-!
Verification of the POS-integration layer of the kaif-table repository.

We shallowly embed the JavaScript/TypeScript code of
`src/server/src/services/iikoService.ts` and `src/server/src/routes/iiko.ts`
in Lean.  JavaScript numbers are modelled as `Option ℚ` where `none` plays the
role of `NaN` (exact rational arithmetic; the monetary values in the source are
plain JS numbers and the claims are about exact arithmetic).  JavaScript
values appearing in parsed JSON rows are modelled by `JsVal`; the `||` fallback
chains of the source are modelled by `jsOr` together with JS truthiness.
`parseFloat` is modelled on the decimal-literal fragment it is applied to in
this code base: optional leading whitespace, optional sign, digits with an
optional fractional part and an optional exponent part, parsed as the longest
numeric prefix; every other string (and `undefined`) yields `none`, i.e. `NaN`.
-/

/-- A JavaScript value as it can occur in a parsed JSON report row:
`undefined` (absent property), a string, a finite number, or `NaN`. -/
inductive JsVal where
  | undef : JsVal
  | str : String → JsVal
  | num : ℚ → JsVal
  | nan : JsVal
deriving DecidableEq, Repr

/-- JavaScript truthiness of a `JsVal`: `undefined`, `""`, `0` and `NaN`
are falsy, everything else is truthy. -/
def jsTruthy : JsVal → Bool
  | JsVal.undef => false
  | JsVal.str s => s ≠ ""
  | JsVal.num q => q ≠ 0
  | JsVal.nan => false

/-- The JavaScript `a || b` operator on values: `a` if truthy, else `b`. -/
def jsOr (a b : JsVal) : JsVal := if jsTruthy a then a else b

/-- Numeric value of a list of decimal digit characters. -/
def digitsVal (cs : List Char) : ℕ :=
  cs.foldl (fun a c => 10 * a + (c.toNat - 48)) 0

/-- The decimal-literal fragment of JavaScript `parseFloat` on a string:
skip leading whitespace, optional sign, digits with optional fractional part,
optional exponent; the longest numeric prefix is parsed and the rest of the
string is ignored.  `none` models `NaN` (no numeric prefix at all). -/
def jsStrToRat (s : String) : Option ℚ :=
  let cs0 := s.data.dropWhile (fun c => c = ' ' ∨ c = '\t' ∨ c = '\n' ∨ c = '\r')
  let sgn : ℚ := match cs0 with
    | '-' :: _ => -1
    | _ => 1
  let cs := match cs0 with
    | '-' :: rest => rest
    | '+' :: rest => rest
    | _ => cs0
  let intDigits := cs.takeWhile Char.isDigit
  let cs1 := cs.dropWhile Char.isDigit
  let fracDigits := match cs1 with
    | '.' :: rest => rest.takeWhile Char.isDigit
    | _ => []
  let cs2 := match cs1 with
    | '.' :: rest => rest.dropWhile Char.isDigit
    | _ => cs1
  if intDigits = [] ∧ fracDigits = [] then none
  else
    let mant : ℚ := (digitsVal intDigits : ℚ) +
      (digitsVal fracDigits : ℚ) / ((10 : ℚ) ^ fracDigits.length)
    let expVal : ℤ := match cs2 with
      | 'e' :: '-' :: ds => -(digitsVal (ds.takeWhile Char.isDigit) : ℤ)
      | 'e' :: '+' :: ds => (digitsVal (ds.takeWhile Char.isDigit) : ℤ)
      | 'e' :: ds => (digitsVal (ds.takeWhile Char.isDigit) : ℤ)
      | 'E' :: '-' :: ds => -(digitsVal (ds.takeWhile Char.isDigit) : ℤ)
      | 'E' :: '+' :: ds => (digitsVal (ds.takeWhile Char.isDigit) : ℤ)
      | 'E' :: ds => (digitsVal (ds.takeWhile Char.isDigit) : ℤ)
      | _ => 0
    some (sgn * mant * (10 : ℚ) ^ expVal)

/-- JavaScript `parseFloat` applied to a `JsVal` (the argument is coerced to a
string first, so `undefined` and `NaN` parse to `NaN`, a finite number parses
to itself). -/
def jsParseFloat : JsVal → Option ℚ
  | JsVal.undef => none
  | JsVal.nan => none
  | JsVal.num q => some q
  | JsVal.str s => jsStrToRat s

/-- JavaScript addition on number-or-NaN: `NaN` is absorbing. -/
def jadd : Option ℚ → Option ℚ → Option ℚ
  | some a, some b => some (a + b)
  | _, _ => none

/-- JavaScript subtraction on number-or-NaN: `NaN` is absorbing. -/
def jsub : Option ℚ → Option ℚ → Option ℚ
  | some a, some b => some (a - b)
  | _, _ => none

/-- Sum of a list of number-or-NaN values, starting from `0`. -/
def jsum (l : List (Option ℚ)) : Option ℚ := l.foldr jadd (some 0)

/-- A parsed JSON report row: an association list from property names to
values.  Absent properties read as `undefined`. -/
abbrev Row : Type := List (String × JsVal)

/-- JavaScript property access `row[k]`: the stored value, or `undefined`. -/
def Row.get (r : Row) (k : String) : JsVal :=
  match r.find? (fun p => p.1 = k) with
  | some p => p.2
  | none => JsVal.undef

/-- `parseFloat(row['DishSumInt'] || row['Sum'] || 0)` — the gross amount of a
pivot row (iikoService.ts line 277). -/
def grossOf (r : Row) : Option ℚ :=
  jsParseFloat (jsOr (r.get "DishSumInt") (jsOr (r.get "Sum") (JsVal.num 0)))

/-- `parseFloat(row['DishDiscountSumInt'] || row['Discount'] || 0)` — the
discount of a pivot row (iikoService.ts line 278). -/
def discountOf (r : Row) : Option ℚ :=
  jsParseFloat (jsOr (r.get "DishDiscountSumInt") (jsOr (r.get "Discount") (JsVal.num 0)))

/-- `parseFloat(row['DishAmountInt'] || row['Amount'] || 0)` — the quantity of
a pivot row (iikoService.ts line 289). -/
def quantityOf (r : Row) : Option ℚ :=
  jsParseFloat (jsOr (r.get "DishAmountInt") (jsOr (r.get "Amount") (JsVal.num 0)))

/-- `row[k1] || row[k2] || ''` — the string-field fallback chain used for the
non-numeric fields of a pivot row. -/
def strFieldOf (r : Row) (k1 k2 : String) : JsVal :=
  jsOr (r.get k1) (jsOr (r.get k2) (JsVal.str ""))

/-- `row[k] || ''` — single-key string field. -/
def strFieldOf1 (r : Row) (k : String) : JsVal :=
  jsOr (r.get k) (JsVal.str "")

/-- `row['OpenTime'] || row['CloseTime'] || row['OpenDate'] || ''`. -/
def openTimeOf (r : Row) : JsVal :=
  jsOr (r.get "OpenTime") (jsOr (r.get "CloseTime") (jsOr (r.get "OpenDate") (JsVal.str "")))

/-- One canonical sales line item produced by `parseOlapResponse`
(interface `OlapSalesItem` of iikoService.ts). -/
structure OlapSalesItem where
  dishId : JsVal
  dishName : JsVal
  dishCode : JsVal
  dishCategory : JsVal
  dishCategoryId : JsVal
  dishGroup : JsVal
  dishGroupId : JsVal
  quantity : Option ℚ
  amount : Option ℚ
  discountSum : Option ℚ
  orderNum : JsVal
  openTime : JsVal
  departmentId : JsVal
  departmentName : JsVal
deriving DecidableEq, Repr

/-- The summary block of an `OlapReportResponse`. -/
structure OlapSummary where
  totalAmount : Option ℚ
  totalQuantity : Option ℚ
  totalDiscount : Option ℚ
deriving DecidableEq, Repr

/-- The result of parsing an OLAP pivot response. -/
structure OlapReportResponse where
  data : List OlapSalesItem
  summary : OlapSummary
deriving DecidableEq, Repr

/-- The line item built from one pivot row by the current revision of
`parseOlapResponse` (iikoService.ts lines 276–296): the stored `amount` is the
net amount `gross − discount`. -/
def itemOfRow (r : Row) : OlapSalesItem where
  dishId := strFieldOf r "DishId" "Dish.Id"
  dishName := strFieldOf r "DishName" "Dish.Name"
  dishCode := strFieldOf r "DishCode" "Dish.Code"
  dishCategory := strFieldOf r "DishCategory" "Dish.Category"
  dishCategoryId := strFieldOf1 r "DishCategory.Id"
  dishGroup := strFieldOf r "DishGroup" "Dish.Group"
  dishGroupId := strFieldOf1 r "DishGroup.Id"
  quantity := quantityOf r
  amount := jsub (grossOf r) (discountOf r)
  discountSum := discountOf r
  orderNum := strFieldOf r "OrderNum" "Order.Number"
  openTime := openTimeOf r
  departmentId := strFieldOf1 r "Department.Id"
  departmentName := strFieldOf r "Department" "Department.Name"

/-- The accumulator threaded through the row loop of `parseOlapResponse`:
the items collected so far and the running gross, quantity and discount
totals. -/
structure OlapAcc where
  items : List OlapSalesItem
  totalGross : Option ℚ
  totalQuantity : Option ℚ
  totalDiscount : Option ℚ

/-- One iteration of the row loop of the current `parseOlapResponse`
(iikoService.ts lines 276–302). -/
def olapStep (acc : OlapAcc) (r : Row) : OlapAcc where
  items := acc.items ++ [itemOfRow r]
  totalGross := jadd acc.totalGross (grossOf r)
  totalQuantity := jadd acc.totalQuantity (quantityOf r)
  totalDiscount := jadd acc.totalDiscount (discountOf r)

/-- The current revision of `parseOlapResponse` (iikoService.ts lines
259–316): loop over rows accumulating items and totals, then return the items
with `totalAmount` set to the net total `totalGross − totalDiscount`. -/
def parseOlapResponse (rows : List Row) : OlapReportResponse :=
  let acc := rows.foldl olapStep ⟨[], some 0, some 0, some 0⟩
  { data := acc.items
    summary :=
      { totalAmount := jsub acc.totalGross acc.totalDiscount
        totalQuantity := acc.totalQuantity
        totalDiscount := acc.totalDiscount } }

/-- The line item built from one pivot row by the earlier revision of
`parseOlapResponse` (src/unnamed/part_009 lines 275–291): the stored `amount`
is the raw gross amount and no subtraction is performed. -/
def itemOfRowOld (r : Row) : OlapSalesItem where
  dishId := strFieldOf r "DishId" "Dish.Id"
  dishName := strFieldOf r "DishName" "Dish.Name"
  dishCode := strFieldOf r "DishCode" "Dish.Code"
  dishCategory := strFieldOf r "DishCategory" "Dish.Category"
  dishCategoryId := strFieldOf1 r "DishCategory.Id"
  dishGroup := strFieldOf r "DishGroup" "Dish.Group"
  dishGroupId := strFieldOf1 r "DishGroup.Id"
  quantity := quantityOf r
  amount := grossOf r
  discountSum := discountOf r
  orderNum := strFieldOf r "OrderNum" "Order.Number"
  openTime := openTimeOf r
  departmentId := strFieldOf1 r "Department.Id"
  departmentName := strFieldOf r "Department" "Department.Name"

/-- One iteration of the row loop of the earlier `parseOlapResponse`
(src/unnamed/part_009 lines 275–297): `totalAmount` accumulates the stored
(gross) item amounts. -/
def olapStepOld (acc : OlapAcc) (r : Row) : OlapAcc where
  items := acc.items ++ [itemOfRowOld r]
  totalGross := jadd acc.totalGross (itemOfRowOld r).amount
  totalQuantity := jadd acc.totalQuantity (quantityOf r)
  totalDiscount := jadd acc.totalDiscount (discountOf r)

/-- The earlier revision of `parseOlapResponse` (src/unnamed/part_009 lines
258–309): items store the gross amount and `totalAmount` is the sum of the
stored amounts, with no discount subtraction anywhere. -/
def parseOlapResponseOld (rows : List Row) : OlapReportResponse :=
  let acc := rows.foldl olapStepOld ⟨[], some 0, some 0, some 0⟩
  { data := acc.items
    summary :=
      { totalAmount := acc.totalGross
        totalQuantity := acc.totalQuantity
        totalDiscount := acc.totalDiscount } }

/-! ## Sync orchestration (`router.post('/sync')`, iiko.ts lines 134–210) -/

/-- The observable side-effecting steps of the sync handler after settings
have been loaded successfully. -/
inductive SyncStep where
  | fetchReport : SyncStep
  | deleteRange : SyncStep
  | insertItems : SyncStep
  | updateSettings : SyncStep
  | logoutStep : SyncStep
deriving DecidableEq, Repr

/-- Which of the fallible steps of a sync run succeed (the outcome of the
corresponding awaited call). -/
structure SyncOutcome where
  fetchOk : Bool
  deleteOk : Bool
  insertOk : Bool
  updateOk : Bool
deriving DecidableEq, Repr

/-- The sequence of side-effecting steps executed by the body of
`router.post('/sync')` (iiko.ts lines 156–204) for a given outcome, where
`nonempty` records whether `report.data.length > 0`.  The handler runs the
steps in order inside one `try` block; the first failing step throws and
control jumps to the `catch` clause (lines 205–209), which only sends the
error response — there is no `finally` clause. -/
def syncTrace (o : SyncOutcome) (nonempty : Bool) : List SyncStep :=
  if o.fetchOk = false then [SyncStep.fetchReport]
  else if o.deleteOk = false then [SyncStep.fetchReport, SyncStep.deleteRange]
  else if nonempty ∧ o.insertOk = false then
    [SyncStep.fetchReport, SyncStep.deleteRange, SyncStep.insertItems]
  else
    (if nonempty then
      [SyncStep.fetchReport, SyncStep.deleteRange, SyncStep.insertItems]
     else [SyncStep.fetchReport, SyncStep.deleteRange]) ++
    (if o.updateOk = false then [SyncStep.updateSettings]
     else [SyncStep.updateSettings, SyncStep.logoutStep])

/-- Whether a sync run with the given outcome reaches the success response
(iiko.ts line 200). -/
def syncSucceeds (o : SyncOutcome) (nonempty : Bool) : Bool :=
  o.fetchOk && o.deleteOk && (!nonempty || o.insertOk) && o.updateOk

/-! ## Persisted sales and the replace-range step -/

/-- A persisted `iikoSale` row as used by the aggregation routes.  `openTime`
is the sale timestamp in minutes since the Unix epoch (UTC); the amounts are
the plain numbers stored by the insert step. -/
structure Sale where
  dishName : String
  dishCategory : String
  orderNum : String
  quantity : ℚ
  amount : ℚ
  discountSum : ℚ
  openTime : ℤ
deriving DecidableEq, Repr

/-- `new Date(dateFrom) <= openTime <= new Date(dateTo + 'T23:59:59')`:
membership of a sale timestamp in the sync range, where `fromT` is the range
start instant and `toT` the end-of-day instant of `dateTo`. -/
def inRange (fromT toT : ℤ) (s : Sale) : Prop := fromT ≤ s.openTime ∧ s.openTime ≤ toT

instance (fromT toT : ℤ) (s : Sale) : Decidable (inRange fromT toT s) :=
  inferInstanceAs (Decidable (_ ∧ _))

/-- The effect of one sync run on the persisted sale table (iiko.ts lines
159–189): `deleteMany` removes every row whose `openTime` lies in the range,
then `createMany` appends the new batch (skipped when the batch is empty,
which appends nothing). -/
def syncPersist (fromT toT : ℤ) (batch : List Sale) (db : List Sale) : List Sale :=
  (db.filter (fun s => ¬ inRange fromT toT s)) ++ batch

/-! ## Revenue aggregation (`router.get('/revenue')`, iiko.ts lines 271–337) -/

/-- The date-range filter of the `findMany` query in the revenue route. -/
def filterRange (fromT toT : ℤ) (db : List Sale) : List Sale :=
  db.filter (fun s => inRange fromT toT s)

/-- `sales.reduce((sum, s) => sum + s.amount, 0)`. -/
def totalRevenueOf (sales : List Sale) : ℚ :=
  sales.foldl (fun sum s => sum + s.amount) 0

/-- `new Set(sales.map(s => s.orderNum)).size` — the number of distinct order
numbers. -/
def orderCountOf (sales : List Sale) : ℕ :=
  ((sales.map (fun s => s.orderNum)).dedup).length

/-- `orderCount > 0 ? totalRevenue / orderCount : 0` (iiko.ts line 292). -/
def averageCheckOf (sales : List Sale) : ℚ :=
  if orderCountOf sales > 0 then totalRevenueOf sales / (orderCountOf sales : ℚ) else 0

/-- The calendar day (days since epoch, UTC) shown by
`openTime.toISOString().split('T')[0]`: the ISO string is always rendered in
UTC, so this is the floor of the timestamp over the day length. -/
def utcDay (t : ℤ) : ℤ := Int.fdiv t 1440

/-- The calendar day of the timestamp in the server's local zone, for a zone
`off` minutes ahead of UTC.  (Not used by the code of the revenue route; it is
the day the specification claims `byDay` groups by.) -/
def localDay (off t : ℤ) : ℤ := Int.fdiv (t + off) 1440

/-- `dailyMap.set(day, (dailyMap.get(day) || 0) + sale.amount)` on an
insertion-ordered association list: update the existing bucket in place or
append a new one. -/
def addDay (m : List (ℤ × ℚ)) (d : ℤ) (a : ℚ) : List (ℤ × ℚ) :=
  match m with
  | [] => [(d, a)]
  | (d', a') :: rest =>
    if d' = d then (d', a' + a) :: rest else (d', a') :: addDay rest d a

/-- The day-grouping loop of the revenue route (iiko.ts lines 305–309): each
sale's amount is added to the bucket of the UTC calendar day of its
timestamp. -/
def dayGroups (sales : List Sale) : List (ℤ × ℚ) :=
  sales.foldl (fun m s => addDay m (utcDay s.openTime) s.amount) []

/-- The ordering the revenue route sorts `byDay` with: ascending by date
(`a.date.localeCompare(b.date)` on ISO date strings orders them
chronologically, i.e. by day number). -/
def dayLe (a b : ℤ × ℚ) : Prop := a.1 ≤ b.1

instance : DecidableRel dayLe := fun a b => inferInstanceAs (Decidable (a.1 ≤ b.1))

instance : IsTotal (ℤ × ℚ) dayLe := ⟨fun a b => le_total a.1 b.1⟩

instance : IsTrans (ℤ × ℚ) dayLe := ⟨fun _ _ _ h h' => le_trans h h'⟩

/-- The `byDay` list returned by the revenue route: the day buckets sorted
ascending by date. -/
def byDay (sales : List Sale) : List (ℤ × ℚ) :=
  List.insertionSort dayLe (dayGroups sales)

/-- The sum of the amounts of the sales whose timestamp falls on UTC day `d`
(the intended content of a `byDay` bucket). -/
def sumOnDay (sales : List Sale) (d : ℤ) : ℚ :=
  ((sales.filter (fun s => utcDay s.openTime = d)).map (fun s => s.amount)).sum

/-! ## Session manager (`authenticate`, iikoService.ts lines 58–90) -/

/-- The token cache of an `IikoService` instance: `this.token` (a string or
`null`) and `this.tokenExpiry` (a `Date` or `null`, in ms since epoch). -/
structure AuthState where
  token : Option String
  tokenExpiry : Option ℤ
deriving DecidableEq, Repr

/-- The result of a successful `authenticate()` call: the returned token, the
updated cache, and whether a network login call was issued. -/
structure AuthResult where
  token : String
  state : AuthState
  networkCalled : Bool
deriving DecidableEq, Repr

/-- Truthiness of `this.token` in the guard
`if (this.token && this.tokenExpiry && new Date() < this.tokenExpiry)`:
a `null` token and the empty-string token are falsy. -/
def tokenTruthy : Option String → Bool
  | none => false
  | some t => t ≠ ""

/-- `authenticate()` (iikoService.ts lines 58–90) on the success path of the
network call: return the cached token if `this.token` is truthy and the expiry
instant is strictly in the future; otherwise perform the login call, cache the
received token, and set the expiry 10 minutes (600000 ms) from now. -/
def authenticate (now : ℤ) (st : AuthState) (serverToken : String) : AuthResult :=
  if tokenTruthy st.token ∧ (∃ e, st.tokenExpiry = some e ∧ now < e) then
    { token := st.token.getD "", state := st, networkCalled := false }
  else
    { token := serverToken
      state := { token := some serverToken, tokenExpiry := some (now + 600000) }
      networkCalled := true }

instance (now : ℤ) (st : AuthState) :
    Decidable (tokenTruthy st.token ∧ (∃ e, st.tokenExpiry = some e ∧ now < e)) := by
  cases st with
  | mk tok exp =>
    cases exp with
    | none =>
      exact Decidable.isFalse (fun h => by
        obtain ⟨_, e, he, _⟩ := h
        simp at he)
    | some e0 =>
      by_cases h1 : tokenTruthy tok = true
      · by_cases h2 : now < e0
        · exact Decidable.isTrue ⟨h1, e0, rfl, h2⟩
        · exact Decidable.isFalse (fun h => by
            obtain ⟨_, e, he, hlt⟩ := h
            simp only [Option.some.injEq] at he
            exact h2 (he ▸ hlt))
      · exact Decidable.isFalse (fun h => h1 h.1)

/-! ## XML daily report (`parseDailyReportXml`, iikoService.ts lines 457–534) -/

/-- One `<data>…</data>` block of the daily-report payload, modelled after the
regex extraction as the association of inner tag names to their text content
(the first match wins, as with `String.match`). -/
abbrev XmlBlock : Type := List (String × String)

/-- Case-insensitive equality of tag names, modelling the `i` flag of the
field regex. -/
def lowerEq (a b : String) : Bool :=
  a.data.map Char.toLower = b.data.map Char.toLower

/-- `getField` (iikoService.ts lines 469–473): first match of the
case-insensitive tag regex, or the empty string when the tag is absent. -/
def XmlBlock.getField (b : XmlBlock) (k : String) : String :=
  match b.find? (fun p => lowerEq p.1 k) with
  | some p => p.2
  | none => ""

/-- `parseFloat(s) || 0`: the parsed number, with `NaN` (and `0` itself)
collapsing to `0`. -/
def parseNumOr0 (s : String) : ℚ :=
  match jsStrToRat s with
  | some q => if q = 0 then 0 else q
  | none => 0

/-- One extracted line item of the daily report. -/
structure DailyItem where
  date : String
  category : String
  dishName : String
  paymentType : String
  amount : ℚ
  quantity : ℚ
deriving DecidableEq, Repr

/-- The item built from one data block (iikoService.ts lines 475–490): the
amount is read directly from the single `DishDiscountSumInt` field — it is
already net, and no gross-minus-discount subtraction is performed. -/
def dailyItemOf (b : XmlBlock) : DailyItem where
  date := b.getField "OpenDate.Typed"
  category := b.getField "DishCategory"
  dishName := b.getField "DishName"
  paymentType := b.getField "PayTypes"
  amount := parseNumOr0 (b.getField "DishDiscountSumInt")
  quantity := parseNumOr0 (b.getField "DishAmountInt")

/-- The extraction loop of `parseDailyReportXml` (iikoService.ts lines
465–492): a block contributes an item only when its dish-name field is
nonempty (`if (dishName)`). -/
def dailyItems (blocks : List XmlBlock) : List DailyItem :=
  blocks.filterMap (fun b =>
    if b.getField "DishName" ≠ "" then some (dailyItemOf b) else none)

/-- One per-dish summary bucket. -/
structure DishAgg where
  category : String
  quantity : ℚ
  amount : ℚ
deriving DecidableEq, Repr

/-- `dishSummary.set(key, {category: item.category, quantity: existing.quantity
+ item.quantity, amount: existing.amount + item.amount})` on an
insertion-ordered association list keyed by dish name. -/
def addDish (m : List (String × DishAgg)) (it : DailyItem) : List (String × DishAgg) :=
  match m with
  | [] => [(it.dishName, ⟨it.category, it.quantity, it.amount⟩)]
  | (k, agg) :: rest =>
    if k = it.dishName then
      (k, ⟨it.category, agg.quantity + it.quantity, agg.amount + it.amount⟩) :: rest
    else (k, agg) :: addDish rest it

/-- The per-dish grouping loop (iikoService.ts lines 495–504). -/
def dishSummary (items : List DailyItem) : List (String × DishAgg) :=
  items.foldl addDish []

/-- The descending-by-amount ordering of `topItems`
(`.sort((a, b) => b.amount - a.amount)`). -/
def dishGe (a b : String × DishAgg) : Prop := b.2.amount ≤ a.2.amount

instance : DecidableRel dishGe := fun a b => inferInstanceAs (Decidable (b.2.amount ≤ a.2.amount))

instance : IsTotal (String × DishAgg) dishGe := ⟨fun a b => le_total b.2.amount a.2.amount⟩

instance : IsTrans (String × DishAgg) dishGe := ⟨fun _ _ _ h h' => le_trans h' h⟩

/-- `topItems` (iikoService.ts lines 511–514): the dish summary sorted
descending by amount and capped at 20 entries. -/
def topItemsOf (items : List DailyItem) : List (String × DishAgg) :=
  (List.insertionSort dishGe (dishSummary items)).take 20

/-- The result record of `parseDailyReportXml` on the success path
(iikoService.ts lines 516–526). -/
structure DailyReport where
  itemCount : ℕ
  totalAmount : ℚ
  totalQuantity : ℚ
  topItems : List (String × DishAgg)
  items : List DailyItem
deriving DecidableEq, Repr

/-- `parseDailyReportXml` (iikoService.ts lines 457–534), on the list of
extracted data blocks: collect the items, total their amounts and quantities,
and build the capped descending top-items summary. -/
def parseDailyReportXml (blocks : List XmlBlock) : DailyReport :=
  let items := dailyItems blocks
  { itemCount := items.length
    totalAmount := items.foldl (fun sum it => sum + it.amount) 0
    totalQuantity := items.foldl (fun sum it => sum + it.quantity) 0
    topItems := topItemsOf items
    items := items.take 50 }

/-- The sum of the amounts of the extracted items with the given dish name
(the intended amount of a top-items bucket). -/
def sumAmountOnDish (items : List DailyItem) (name : String) : ℚ :=
  ((items.filter (fun it => it.dishName = name)).map (fun it => it.amount)).sum

/-- The sum of the quantities of the extracted items with the given dish
name. -/
def sumQuantityOnDish (items : List DailyItem) (name : String) : ℚ :=
  ((items.filter (fun it => it.dishName = name)).map (fun it => it.quantity)).sum

/-- The full effect of one sync run: the new persisted table together with
the response body `{itemsImported, summary}` (iiko.ts lines 159–204).  The
response is computed from the fetched report only. -/
def syncRun (fromT toT : ℤ) (resp : OlapReportResponse) (batch : List Sale)
    (db : List Sale) : List Sale × ℕ × OlapSummary :=
  (syncPersist fromT toT batch db, resp.data.length, resp.summary)

/-- JavaScript division of a number-or-NaN by a positive count. -/
def jdivN (a : Option ℚ) (n : ℕ) : Option ℚ :=
  match a with
  | some q => some (q / (n : ℚ))
  | none => none

/-- `orderSet.size` of `getRevenueSummary` (iikoService.ts lines 195–212):
the number of distinct `orderNum` values among the report's items. -/
def totalOrdersOf (resp : OlapReportResponse) : ℕ :=
  ((resp.data.map (fun it => it.orderNum)).dedup).length

/-- `totalOrders > 0 ? report.summary.totalAmount / totalOrders : 0`
(iikoService.ts line 213). -/
def averageCheckSummary (resp : OlapReportResponse) : Option ℚ :=
  if totalOrdersOf resp > 0 then jdivN resp.summary.totalAmount (totalOrdersOf resp)
  else some 0

/-- Value stored under a key in an insertion-ordered association list (the
content of `map.get(k)`). -/
def valueAt {κ ν : Type} [DecidableEq κ] (m : List (κ × ν)) (k : κ) : Option ν :=
  (m.find? (fun p => p.1 = k)).map (fun p => p.2)

/-- The pivot row used to refute claim C5: the quantity field is present but
is not parseable as a number. -/
def badQtyRow : Row := [("DishAmountInt", JsVal.str "abc")]

/-- The pivot row used to refute the "exactly" part of claim C8: the gross
field is unparseable (so both revisions store `NaN`) while the discount is a
nonzero number. -/
def nanGrossRow : Row :=
  [("DishSumInt", JsVal.str "abc"), ("DishDiscountSumInt", JsVal.num 5)]

/-- The concrete single-row response used as witness input for the amended
claim C8: gross parses to `100` and the discount parses to `0`. -/
def zeroDiscountRow : Row :=
  [("DishSumInt", JsVal.num 100), ("DishDiscountSumInt", JsVal.num 0)]

/-- The sale used to refute claim C4 whose UTC timestamp is late in one UTC
day (23:00 UTC, which is already the next day in a UTC+7 zone). -/
def saleLate : Sale :=
  { dishName := "A", dishCategory := "BAR", orderNum := "1",
    quantity := 1, amount := 10, discountSum := 0, openTime := 1380 }

/-- The second sale of the C4 counterexample, early in the next UTC day
(01:00 UTC, same local day as `saleLate` in a UTC+7 zone). -/
def saleEarly : Sale :=
  { dishName := "B", dishCategory := "BAR", orderNum := "2",
    quantity := 1, amount := 20, discountSum := 0, openTime := 1500 }

/-! ## Lemmas about number-or-NaN arithmetic and the pivot parser folds -/

theorem jadd_assoc (a b c : Option ℚ) : jadd (jadd a b) c = jadd a (jadd b c) := by
  cases a <;> cases b <;> cases c <;> simp [jadd, add_assoc]

theorem jadd_zero_left (a : Option ℚ) : jadd (some 0) a = a := by
  cases a <;> simp [jadd]

theorem jadd_zero_right (a : Option ℚ) : jadd a (some 0) = a := by
  cases a <;> simp [jadd]

theorem jsum_cons (x : Option ℚ) (l : List (Option ℚ)) :
    jsum (x :: l) = jadd x (jsum l) := rfl

theorem jsub_zero (a : Option ℚ) : jsub a (some 0) = a := by
  cases a <;> simp [jsub]

theorem jsum_eq_zero (l : List (Option ℚ)) (h : ∀ x ∈ l, x = some 0) :
    jsum l = some 0 := by
  induction l with
  | nil => rfl
  | cons x xs ih =>
    rw [jsum_cons, h x (List.mem_cons_self x xs), ih (fun y hy => h y (List.mem_cons_of_mem x hy))]
    simp [jadd]

theorem olapStep_foldl (rows : List Row) (acc : OlapAcc) :
    rows.foldl olapStep acc =
      ⟨acc.items ++ rows.map itemOfRow,
       jadd acc.totalGross (jsum (rows.map grossOf)),
       jadd acc.totalQuantity (jsum (rows.map quantityOf)),
       jadd acc.totalDiscount (jsum (rows.map discountOf))⟩ := by
  induction rows generalizing acc with
  | nil => cases acc; simp [jsum, jadd_zero_right]
  | cons r rows ih =>
    rw [List.foldl_cons, ih]
    cases acc
    simp [olapStep, jsum_cons, jadd_assoc]

/-- The current pivot parser, written as a map over the rows together with
clean sums of the per-row gross amounts, quantities and discounts. -/
theorem parseOlapResponse_eq (rows : List Row) :
    parseOlapResponse rows =
      { data := rows.map itemOfRow
        summary :=
          { totalAmount := jsub (jsum (rows.map grossOf)) (jsum (rows.map discountOf))
            totalQuantity := jsum (rows.map quantityOf)
            totalDiscount := jsum (rows.map discountOf) } } := by
  simp [parseOlapResponse, olapStep_foldl, jadd_zero_left]

theorem olapStepOld_foldl (rows : List Row) (acc : OlapAcc) :
    rows.foldl olapStepOld acc =
      ⟨acc.items ++ rows.map itemOfRowOld,
       jadd acc.totalGross (jsum (rows.map grossOf)),
       jadd acc.totalQuantity (jsum (rows.map quantityOf)),
       jadd acc.totalDiscount (jsum (rows.map discountOf))⟩ := by
  induction rows generalizing acc with
  | nil => cases acc; simp [jsum, jadd_zero_right]
  | cons r rows ih =>
    rw [List.foldl_cons, ih]
    cases acc
    simp [olapStepOld, itemOfRowOld, jsum_cons, jadd_assoc]

/-- The earlier pivot parser, written as a map over the rows together with
clean sums; its `totalAmount` is the plain gross sum. -/
theorem parseOlapResponseOld_eq (rows : List Row) :
    parseOlapResponseOld rows =
      { data := rows.map itemOfRowOld
        summary :=
          { totalAmount := jsum (rows.map grossOf)
            totalQuantity := jsum (rows.map quantityOf)
            totalDiscount := jsum (rows.map discountOf) } } := by
  simp [parseOlapResponseOld, olapStepOld_foldl, jadd_zero_left]

/-- Claim C1: for every pivot-report response row parsed by
`parseOlapResponse`, the amount stored in the resulting line item equals the
row's gross amount (from `DishSumInt`/`Sum`) minus the row's discount (from
`DishDiscountSumInt`/`Discount`), and the returned `summary.totalAmount`
equals the sum of all rows' gross amounts minus the sum of all rows'
discounts, in exact arithmetic; the raw gross figure is never stored as the
item amount. -/
theorem claim_C1_net_amount (rows : List Row) :
    (parseOlapResponse rows).data.map (fun it => it.amount)
        = rows.map (fun r => jsub (grossOf r) (discountOf r))
    ∧ (parseOlapResponse rows).summary.totalAmount
        = jsub (jsum (rows.map grossOf)) (jsum (rows.map discountOf)) := by
  refine ⟨?_, ?_⟩
  · rw [parseOlapResponse_eq]
    simp [itemOfRow, List.map_map, Function.comp]
  · rw [parseOlapResponse_eq]

/-- Claim C5 counterexample: a row whose `DishAmountInt` field is the
non-numeric string `"abc"` parses to a `NaN` quantity (`none`), not to `0` —
a present-but-unparseable numeric field does not default to `0`. -/
theorem claim_C5_counterexample :
    (parseOlapResponse [badQtyRow]).data.map (fun it => it.quantity) = [none]
    ∧ (parseOlapResponse [badQtyRow]).data.map (fun it => it.quantity) ≠ [some 0] := by
  constructor
  · rfl
  · decide

/-- Claim C5 (amended): parsing never throws (the parse functions are total)
and a *missing* numeric field parses to `0`; but a field that is present and
not parseable as a number yields `NaN` (`none`), which propagates into the
item, and a malformed row still yields an entry — the batch is never
shortened. -/
theorem claim_C5_amended (r : Row) (rows : List Row) :
    (r.get "DishAmountInt" = JsVal.undef → r.get "Amount" = JsVal.undef →
        quantityOf r = some 0)
    ∧ (r.get "DishSumInt" = JsVal.undef → r.get "Sum" = JsVal.undef →
        grossOf r = some 0)
    ∧ (r.get "DishDiscountSumInt" = JsVal.undef → r.get "Discount" = JsVal.undef →
        discountOf r = some 0)
    ∧ (parseOlapResponse rows).data.length = rows.length := by
  refine ⟨?_, ?_, ?_, ?_⟩
  · intro h1 h2
    simp [quantityOf, h1, h2, jsOr, jsTruthy, jsParseFloat]
  · intro h1 h2
    simp [grossOf, h1, h2, jsOr, jsTruthy, jsParseFloat]
  · intro h1 h2
    simp [discountOf, h1, h2, jsOr, jsTruthy, jsParseFloat]
  · rw [parseOlapResponse_eq]
    simp

/-- Witness for the amended claim C5 at the empty row. -/
theorem claim_C5_amended_witness :
    quantityOf [] = some 0 ∧ grossOf [] = some 0 ∧ discountOf [] = some 0 := by
  have h := claim_C5_amended [] []
  exact ⟨h.1 rfl rfl, h.2.1 rfl rfl, h.2.2.1 rfl rfl⟩

/-- Claim C8 counterexample: on a response whose single row has an
unparseable gross amount and discount `5`, the two parser revisions produce
identical output (both store `NaN` amounts and `NaN` totals) although the
row's parsed discount is `5 ≠ 0` — so "identical exactly when every row's
discount is 0" fails in the NaN corner. -/
theorem claim_C8_counterexample :
    parseOlapResponse [nanGrossRow] = parseOlapResponseOld [nanGrossRow]
    ∧ discountOf nanGrossRow ≠ some 0 := by
  constructor
  · rfl
  · decide

/-- Claim C8 (amended): the current parser's per-item amount equals the
earlier revision's per-item amount minus that row's parsed discount, and the
current `summary.totalAmount` equals the earlier revision's `totalAmount`
minus its `totalDiscount`; if every row's parsed discount is `0` the two
parsers produce identical output, and — provided every row's gross amount
parses to an actual number (not `NaN`) — they produce identical output
*exactly* on responses in which every row's parsed discount is `0`. -/
theorem claim_C8_amended (rows : List Row) :
    (parseOlapResponse rows).data.map (fun it => it.amount)
        = (parseOlapResponseOld rows).data.map (fun it => jsub it.amount it.discountSum)
    ∧ (parseOlapResponse rows).summary.totalAmount
        = jsub (parseOlapResponseOld rows).summary.totalAmount
            (parseOlapResponseOld rows).summary.totalDiscount
    ∧ ((∀ r ∈ rows, discountOf r = some 0) →
        parseOlapResponse rows = parseOlapResponseOld rows)
    ∧ ((∀ r ∈ rows, (grossOf r).isSome) →
        (parseOlapResponse rows = parseOlapResponseOld rows ↔
          ∀ r ∈ rows, discountOf r = some 0)) := by
  have hitem : ∀ r : Row, (∀ s ∈ rows, discountOf s = some 0) → r ∈ rows →
      itemOfRow r = itemOfRowOld r := by
    intro r hall hr
    have hd := hall r hr
    simp [itemOfRow, itemOfRowOld, hd, jsub_zero]
  refine ⟨?_, ?_, ?_, ?_⟩
  · rw [parseOlapResponse_eq, parseOlapResponseOld_eq]
    simp [itemOfRow, itemOfRowOld, List.map_map, Function.comp]
  · rw [parseOlapResponse_eq, parseOlapResponseOld_eq]
  · intro hall
    rw [parseOlapResponse_eq, parseOlapResponseOld_eq]
    have hmap : rows.map itemOfRow = rows.map itemOfRowOld :=
      List.map_inj_left.mpr (fun r hr => hitem r hall hr)
    have hdz : jsum (rows.map discountOf) = some 0 := by
      apply jsum_eq_zero
      intro x hx
      obtain ⟨r, hr, rfl⟩ := List.mem_map.mp hx
      exact hall r hr
    rw [hmap, hdz, jsub_zero]
  · intro hg
    constructor
    · intro heq r hr
      have hd : (parseOlapResponse rows).data = (parseOlapResponseOld rows).data :=
        congrArg OlapReportResponse.data heq
      rw [parseOlapResponse_eq, parseOlapResponseOld_eq] at hd
      have hpt := List.map_inj_left.mp hd r hr
      have ham : jsub (grossOf r) (discountOf r) = grossOf r := by
        have := congrArg OlapSalesItem.amount hpt
        simpa [itemOfRow, itemOfRowOld] using this
      obtain ⟨g, hgr⟩ := Option.isSome_iff_exists.mp (hg r hr)
      rw [hgr] at ham
      cases hdisc : discountOf r with
      | none => rw [hdisc] at ham; simp [jsub] at ham
      | some d =>
        rw [hdisc] at ham
        simp only [jsub, Option.some.injEq] at ham
        have : d = 0 := by linarith [sub_eq_self.mp ham]
        rw [this]
    · intro hall
      rw [parseOlapResponse_eq, parseOlapResponseOld_eq]
      have hmap : rows.map itemOfRow = rows.map itemOfRowOld :=
        List.map_inj_left.mpr (fun r hr => hitem r hall hr)
      have hdz : jsum (rows.map discountOf) = some 0 := by
        apply jsum_eq_zero
        intro x hx
        obtain ⟨r, hr, rfl⟩ := List.mem_map.mp hx
        exact hall r hr
      rw [hmap, hdz, jsub_zero]

/-- Witness for the amended claim C8: at a concrete response whose gross
amounts all parse, both inner hypotheses are discharged. -/
theorem claim_C8_amended_witness :
    parseOlapResponse [zeroDiscountRow] = parseOlapResponseOld [zeroDiscountRow]
    ∧ (parseOlapResponse [zeroDiscountRow] = parseOlapResponseOld [zeroDiscountRow] ↔
        ∀ r ∈ [zeroDiscountRow], discountOf r = some 0) := by
  have h := claim_C8_amended [zeroDiscountRow]
  exact ⟨h.2.2.1 (by decide), h.2.2.2 (by decide)⟩

/-- Claim C2 counterexample: when the report fetch fails, the sync handler's
trace is just the fetch step — logout is not attempted on that exit path
(the handler has no `finally` clause; the `catch` only sends the error
response). -/
theorem claim_C2_counterexample :
    SyncStep.logoutStep ∉ syncTrace ⟨false, true, true, true⟩ true := by
  decide

/-- Claim C2 (amended): logout is attempted exactly on the all-steps-succeed
path of the sync handler; any failure of the report fetch, the delete, the
insert, or the settings update terminates the run without attempting logout
(leaking the POS session). -/
theorem claim_C2_amended (o : SyncOutcome) (ne : Bool) :
    SyncStep.logoutStep ∈ syncTrace o ne ↔ syncSucceeds o ne = true := by
  rcases o with ⟨f, d, i, u⟩
  revert ne
  cases f <;> cases d <;> cases i <;> cases u <;> decide

/-- Claim C6 counterexample: a cached *empty-string* token with an unexpired
expiry is treated as absent (`this.token` is falsy), so `authenticate()`
issues a network call and returns the fresh token even though a cached token
exists whose expiry has not passed. -/
theorem claim_C6_counterexample :
    (AuthState.mk (some "") (some 100)).token = some ""
    ∧ (0 : ℤ) < 100
    ∧ (authenticate 0 ⟨some "", some 100⟩ "fresh").networkCalled = true
    ∧ (authenticate 0 ⟨some "", some 100⟩ "fresh").token = "fresh" := by
  refine ⟨rfl, by decide, ?_, ?_⟩ <;> decide

/-- Claim C6 (amended): if a *nonempty* cached token exists whose expiry
instant is still in the future, `authenticate()` returns it without a network
call and leaves the cache unchanged; otherwise it performs the login call and
caches the received token with expiry 10 minutes (600000 ms) from now; two
calls within the cache window issue exactly one network call, and a call at
or after the expiry instant issues a second one. -/
theorem claim_C6_amended (now now2 now3 : ℤ) (st st2 : AuthState)
    (srv srv2 srv3 : String) (tok : String) (e : ℤ) :
    (st.token = some tok → tok ≠ "" → st.tokenExpiry = some e → now < e →
      authenticate now st srv = ⟨tok, st, false⟩)
    ∧ ((tokenTruthy st2.token = false ∨ ∀ e2, st2.tokenExpiry = some e2 → e2 ≤ now) →
      authenticate now st2 srv = ⟨srv, ⟨some srv, some (now + 600000)⟩, true⟩)
    ∧ (srv ≠ "" → now2 < now + 600000 →
      (authenticate now ⟨none, none⟩ srv).networkCalled = true ∧
      authenticate now2 (authenticate now ⟨none, none⟩ srv).state srv2
        = ⟨srv, (authenticate now ⟨none, none⟩ srv).state, false⟩)
    ∧ (now + 600000 ≤ now3 →
      (authenticate now3 (authenticate now ⟨none, none⟩ srv).state srv3).networkCalled
        = true) := by
  have hfresh : authenticate now ⟨none, none⟩ srv
      = ⟨srv, ⟨some srv, some (now + 600000)⟩, true⟩ := by
    rw [authenticate, if_neg]
    rintro ⟨ht, _⟩
    simp [tokenTruthy] at ht
  refine ⟨?_, ?_, ?_, ?_⟩
  · intro h1 h2 h3 h4
    rw [authenticate, if_pos ⟨by simp [h1, tokenTruthy, h2], e, h3, h4⟩]
    simp [h1]
  · intro h
    rw [authenticate, if_neg]
    rintro ⟨ht, e2, he2, hlt⟩
    rcases h with h | h
    · rw [h] at ht; exact Bool.false_ne_true ht
    · exact absurd hlt (not_lt.mpr (h e2 he2))
  · intro h1 h2
    rw [hfresh]
    refine ⟨rfl, ?_⟩
    rw [authenticate, if_pos ⟨by simp [tokenTruthy, h1], now + 600000, rfl, h2⟩]
    simp
  · intro h
    rw [hfresh, authenticate, if_neg]
    rintro ⟨_, e2, he2, hlt⟩
    simp only [Option.some.injEq] at he2
    omega

/-- Witness for the amended claim C6: a concrete cache-hit state, a concrete
cache-miss state, a second call inside the window, and a third call after the
window, with all hypotheses discharged. -/
theorem claim_C6_amended_witness :
    authenticate 0 ⟨some "t", some 100⟩ "A" = ⟨"t", ⟨some "t", some 100⟩, false⟩
    ∧ authenticate 0 ⟨none, none⟩ "A" = ⟨"A", ⟨some "A", some 600000⟩, true⟩
    ∧ ((authenticate 0 ⟨none, none⟩ "A").networkCalled = true ∧
        authenticate 5 (authenticate 0 ⟨none, none⟩ "A").state "B"
          = ⟨"A", (authenticate 0 ⟨none, none⟩ "A").state, false⟩)
    ∧ (authenticate 600000 (authenticate 0 ⟨none, none⟩ "A").state "C").networkCalled
        = true := by
  have h := claim_C6_amended 0 5 600000 ⟨some "t", some 100⟩ ⟨none, none⟩
    "A" "B" "C" "t" 100
  refine ⟨h.1 rfl (by decide) rfl (by decide), ?_, h.2.2.1 (by decide) (by decide),
    h.2.2.2 (by decide)⟩
  have h2 := h.2.1 (Or.inl (by decide))
  simpa using h2

/-- Claim C3: re-running sync with the same range against the same upstream
report data is idempotent: since every persisted row whose timestamp falls in
`[dateFrom, dateTo end-of-day]` is deleted before the new batch is inserted
(and inserting an empty batch appends nothing), the persisted table, its row
count, and the returned `{itemsImported, summary}` after a second run equal
those after the first run.  The hypothesis that the batch's timestamps lie in
the sync range is what the upstream report's inclusive date-range filter
provides. -/
theorem claim_C3_idempotent (fromT toT : ℤ) (resp : OlapReportResponse)
    (batch : List Sale) (db : List Sale)
    (hb : ∀ s ∈ batch, inRange fromT toT s) :
    syncRun fromT toT resp batch (syncRun fromT toT resp batch db).1
      = syncRun fromT toT resp batch db := by
  have hkeep : ∀ l : List Sale,
      (l.filter (fun s => ¬ inRange fromT toT s)).filter
          (fun s => ¬ inRange fromT toT s)
        = l.filter (fun s => ¬ inRange fromT toT s) := by
    intro l
    exact List.filter_eq_self.mpr (fun a ha => (List.mem_filter.mp ha).2)
  have hbatch : batch.filter (fun s => ¬ inRange fromT toT s) = [] := by
    rw [List.filter_eq_nil_iff]
    intro a ha
    simp [hb a ha]
  simp only [syncRun, syncPersist, List.filter_append, hkeep, hbatch,
    List.append_nil]

/-- Witness for claim C3 at a concrete range, batch and pre-existing table:
the batch sale lies inside the range, one old row lies inside (and is
replaced), one lies outside (and is kept). -/
theorem claim_C3_idempotent_witness :
    syncRun 0 14400 ⟨[], ⟨some 5, some 1, some 0⟩⟩
        [{ dishName := "A", dishCategory := "BAR", orderNum := "1",
           quantity := 1, amount := 5, discountSum := 0, openTime := 100 }]
        (syncRun 0 14400 ⟨[], ⟨some 5, some 1, some 0⟩⟩
          [{ dishName := "A", dishCategory := "BAR", orderNum := "1",
             quantity := 1, amount := 5, discountSum := 0, openTime := 100 }]
          [{ dishName := "B", dishCategory := "BAR", orderNum := "2",
             quantity := 1, amount := 7, discountSum := 0, openTime := 200 },
           { dishName := "C", dishCategory := "KITCHEN", orderNum := "3",
             quantity := 1, amount := 2, discountSum := 0, openTime := 20000 }]).1
      = syncRun 0 14400 ⟨[], ⟨some 5, some 1, some 0⟩⟩
          [{ dishName := "A", dishCategory := "BAR", orderNum := "1",
             quantity := 1, amount := 5, discountSum := 0, openTime := 100 }]
          [{ dishName := "B", dishCategory := "BAR", orderNum := "2",
             quantity := 1, amount := 7, discountSum := 0, openTime := 200 },
           { dishName := "C", dishCategory := "KITCHEN", orderNum := "3",
             quantity := 1, amount := 2, discountSum := 0, openTime := 20000 }] := by
  exact claim_C3_idempotent 0 14400 ⟨[], ⟨some 5, some 1, some 0⟩⟩ _ _ (by decide)

/-- Claim C7: in both aggregators — the revenue route over persisted sales
and `getRevenueSummary` over a fetched report — the average check equals the
total revenue divided by the number of distinct order numbers, except that it
is `0` when that count is `0`; in particular a date range matching zero line
items yields order count `0` and average check `0`, with no division by
zero. -/
theorem claim_C7_average_check (sales sales2 : List Sale) (fromT toT : ℤ)
    (resp resp2 : OlapReportResponse) :
    (orderCountOf sales = 0 → averageCheckOf sales = 0)
    ∧ (orderCountOf sales2 ≠ 0 →
        averageCheckOf sales2 = totalRevenueOf sales2 / (orderCountOf sales2 : ℚ))
    ∧ (filterRange fromT toT sales = [] →
        orderCountOf (filterRange fromT toT sales) = 0
        ∧ averageCheckOf (filterRange fromT toT sales) = 0)
    ∧ (totalOrdersOf resp = 0 → averageCheckSummary resp = some 0)
    ∧ (totalOrdersOf resp2 ≠ 0 →
        averageCheckSummary resp2 = jdivN resp2.summary.totalAmount (totalOrdersOf resp2)) := by
  refine ⟨?_, ?_, ?_, ?_, ?_⟩
  · intro h
    simp [averageCheckOf, h]
  · intro h
    simp [averageCheckOf, Nat.pos_of_ne_zero h]
  · intro h
    rw [h]
    constructor
    · rfl
    · rfl
  · intro h
    simp [averageCheckSummary, h]
  · intro h
    simp [averageCheckSummary, Nat.pos_of_ne_zero h]

/-- Witness for claim C7: the empty sales list and empty report hit the
zero-order-count branches; a one-sale list and a one-item report hit the
division branches. -/
theorem claim_C7_average_check_witness :
    (averageCheckOf [] = 0)
    ∧ (averageCheckOf
        [{ dishName := "A", dishCategory := "BAR", orderNum := "1",
           quantity := 1, amount := 5, discountSum := 0, openTime := 100 }]
        = totalRevenueOf
            [{ dishName := "A", dishCategory := "BAR", orderNum := "1",
               quantity := 1, amount := 5, discountSum := 0, openTime := 100 }]
          / (orderCountOf
              [{ dishName := "A", dishCategory := "BAR", orderNum := "1",
                 quantity := 1, amount := 5, discountSum := 0, openTime := 100 }] : ℚ))
    ∧ (orderCountOf (filterRange 0 10 []) = 0 ∧ averageCheckOf (filterRange 0 10 []) = 0)
    ∧ (averageCheckSummary ⟨[], ⟨some 0, some 0, some 0⟩⟩ = some 0) := by
  have h := claim_C7_average_check []
    [{ dishName := "A", dishCategory := "BAR", orderNum := "1",
       quantity := 1, amount := 5, discountSum := 0, openTime := 100 }]
    0 10 ⟨[], ⟨some 0, some 0, some 0⟩⟩ ⟨[], ⟨some 0, some 0, some 0⟩⟩
  exact ⟨h.1 (by decide), h.2.1 (by decide), h.2.2.1 (by decide), h.2.2.2.1 (by decide)⟩

/-! ## Association-list grouping lemmas -/

theorem valueAt_of_mem {κ ν : Type} [DecidableEq κ] (m : List (κ × ν)) (p : κ × ν)
    (hp : p ∈ m) (h : (m.map Prod.fst).Nodup) : valueAt m p.1 = some p.2 := by
  induction m with
  | nil => cases hp
  | cons q rest ih =>
    rcases List.mem_cons.mp hp with hpq | hpr
    · subst hpq
      simp [valueAt, List.find?]
    · have hq1 : q.1 ≠ p.1 := by
        intro hk
        have : p.1 ∈ rest.map Prod.fst := List.mem_map_of_mem Prod.fst hpr
        rw [← hk] at this
        exact (List.nodup_cons.mp h).1 this
      have ht := ih hpr (List.nodup_cons.mp h).2
      simpa [valueAt, List.find?, hq1] using ht

theorem addDay_valueAt_self (m : List (ℤ × ℚ)) (d : ℤ) (a : ℚ) :
    valueAt (addDay m d a) d
      = some (match valueAt m d with | some v => v + a | none => a) := by
  induction m with
  | nil => simp [addDay, valueAt, List.find?]
  | cons q rest ih =>
    obtain ⟨d', a'⟩ := q
    by_cases hd : d' = d
    · subst hd
      simp [addDay, valueAt, List.find?]
    · simpa [addDay, hd, valueAt, List.find?] using ih

theorem addDay_valueAt_ne (m : List (ℤ × ℚ)) (d : ℤ) (a : ℚ) (k : ℤ) (h : k ≠ d) :
    valueAt (addDay m d a) k = valueAt m k := by
  induction m with
  | nil => simp [addDay, valueAt, List.find?, Ne.symm h]
  | cons q rest ih =>
    obtain ⟨d', a'⟩ := q
    by_cases hd : d' = d
    · subst hd
      have hne : (d' = k) = False := eq_false (fun hk => h hk.symm)
      simp [addDay, valueAt, List.find?, hne]
    · by_cases hk : d' = k
      · subst hk
        simp [addDay, hd, valueAt, List.find?]
      · simpa [addDay, hd, valueAt, List.find?, hk] using ih

theorem addDay_keys (m : List (ℤ × ℚ)) (d : ℤ) (a : ℚ) :
    (addDay m d a).map Prod.fst
      = if d ∈ m.map Prod.fst then m.map Prod.fst else m.map Prod.fst ++ [d] := by
  induction m with
  | nil => simp [addDay]
  | cons q rest ih =>
    obtain ⟨d', a'⟩ := q
    by_cases hd : d' = d
    · subst hd
      simp [addDay]
    · by_cases hmem : d ∈ rest.map Prod.fst
      · simp [addDay, hd, ih, hmem, Ne.symm hd]
      · simp [addDay, hd, ih, hmem, Ne.symm hd]

theorem addDay_keys_nodup (m : List (ℤ × ℚ)) (d : ℤ) (a : ℚ)
    (h : (m.map Prod.fst).Nodup) : ((addDay m d a).map Prod.fst).Nodup := by
  rw [addDay_keys]
  by_cases hmem : d ∈ m.map Prod.fst
  · simpa [hmem] using h
  · simp only [hmem, if_false]
    exact List.Nodup.append h (List.nodup_singleton d)
      (by simpa [List.disjoint_singleton] using hmem)

theorem addDay_keys_self (m : List (ℤ × ℚ)) (d : ℤ) (a : ℚ) :
    d ∈ (addDay m d a).map Prod.fst := by
  rw [addDay_keys]
  by_cases hmem : d ∈ m.map Prod.fst <;> simp [hmem]

theorem addDay_keys_mono (m : List (ℤ × ℚ)) (d : ℤ) (a : ℚ) (k : ℤ)
    (h : k ∈ m.map Prod.fst) : k ∈ (addDay m d a).map Prod.fst := by
  rw [addDay_keys]
  by_cases hmem : d ∈ m.map Prod.fst <;> simp [hmem, h]

theorem sumOnDay_nil (d : ℤ) : sumOnDay [] d = 0 := rfl

theorem sumOnDay_cons (s : Sale) (sales : List Sale) (d : ℤ) :
    sumOnDay (s :: sales) d
      = (if utcDay s.openTime = d then s.amount else 0) + sumOnDay sales d := by
  by_cases h : utcDay s.openTime = d <;> simp [sumOnDay, h]

theorem dayFold_present (sales : List Sale) (m : List (ℤ × ℚ)) (d : ℤ) (v : ℚ)
    (h : valueAt m d = some v) :
    valueAt (sales.foldl (fun m2 s => addDay m2 (utcDay s.openTime) s.amount) m) d
      = some (v + sumOnDay sales d) := by
  induction sales generalizing m v with
  | nil => simp [h, sumOnDay]
  | cons s rest ih =>
    rw [List.foldl_cons]
    by_cases hud : utcDay s.openTime = d
    · have hstep : valueAt (addDay m (utcDay s.openTime) s.amount) d
          = some (v + s.amount) := by
        rw [hud, addDay_valueAt_self, h]
      rw [ih _ _ hstep, sumOnDay_cons, if_pos hud]
      ring_nf
    · have hstep : valueAt (addDay m (utcDay s.openTime) s.amount) d = some v := by
        rw [addDay_valueAt_ne _ _ _ _ (fun hk => hud hk.symm), h]
      rw [ih _ _ hstep, sumOnDay_cons, if_neg hud, zero_add]

theorem dayFold_absent (sales : List Sale) (m : List (ℤ × ℚ)) (d : ℤ) (v : ℚ)
    (h : valueAt m d = none)
    (hv : valueAt (sales.foldl (fun m2 s => addDay m2 (utcDay s.openTime) s.amount) m) d
        = some v) :
    v = sumOnDay sales d := by
  induction sales generalizing m with
  | nil => rw [List.foldl_nil, h] at hv; cases hv
  | cons s rest ih =>
    rw [List.foldl_cons] at hv
    by_cases hud : utcDay s.openTime = d
    · have hstep : valueAt (addDay m (utcDay s.openTime) s.amount) d
          = some s.amount := by
        rw [hud, addDay_valueAt_self, h]
      rw [dayFold_present rest _ _ _ hstep] at hv
      rw [sumOnDay_cons, if_pos hud]
      exact (Option.some.inj hv).symm
    · have hstep : valueAt (addDay m (utcDay s.openTime) s.amount) d = none := by
        rw [addDay_valueAt_ne _ _ _ _ (fun hk => hud hk.symm), h]
      rw [sumOnDay_cons, if_neg hud, zero_add]
      exact ih _ hstep hv

theorem dayGroups_keys_nodup (sales : List Sale) :
    ((dayGroups sales).map Prod.fst).Nodup := by
  have haux : ∀ (ss : List Sale) (m : List (ℤ × ℚ)), (m.map Prod.fst).Nodup →
      ((ss.foldl (fun m2 s => addDay m2 (utcDay s.openTime) s.amount) m).map
        Prod.fst).Nodup := by
    intro ss
    induction ss with
    | nil => intro m h; simpa using h
    | cons s rest ih =>
      intro m h
      exact ih _ (addDay_keys_nodup _ _ _ h)
  exact haux sales [] (by simp)

theorem dayGroups_keys_complete (sales : List Sale) (s : Sale) (hs : s ∈ sales) :
    utcDay s.openTime ∈ (dayGroups sales).map Prod.fst := by
  have hmono : ∀ (ss : List Sale) (m : List (ℤ × ℚ)) (k : ℤ), k ∈ m.map Prod.fst →
      k ∈ (ss.foldl (fun m2 s2 => addDay m2 (utcDay s2.openTime) s2.amount) m).map
        Prod.fst := by
    intro ss
    induction ss with
    | nil => intro m k h; simpa using h
    | cons s2 rest ih =>
      intro m k h
      exact ih _ _ (addDay_keys_mono _ _ _ _ h)
  have haux : ∀ (ss : List Sale) (m : List (ℤ × ℚ)), s ∈ ss →
      utcDay s.openTime ∈ (ss.foldl (fun m2 s2 => addDay m2 (utcDay s2.openTime)
        s2.amount) m).map Prod.fst := by
    intro ss
    induction ss with
    | nil => intro m h; cases h
    | cons s2 rest ih =>
      intro m h
      rcases List.mem_cons.mp h with h2 | h2
      · subst h2
        exact hmono rest _ _ (addDay_keys_self _ _ _)
      · exact ih _ h2
  exact haux sales [] hs

/-- Claim C4 counterexample: in a UTC+7 zone (offset 420 minutes) the two
sales fall on the same *local* calendar day, yet `byDay` — which buckets by
the UTC date produced by `toISOString()` — puts them in two different
buckets. -/
theorem claim_C4_counterexample :
    localDay 420 saleLate.openTime = localDay 420 saleEarly.openTime
    ∧ utcDay saleLate.openTime ≠ utcDay saleEarly.openTime
    ∧ byDay [saleLate, saleEarly] = [(0, 10), (1, 20)] := by
  refine ⟨by decide, by decide, by decide⟩

/-- Claim C4 (amended): the revenue route's `byDay` groups each sale's amount
under the *UTC* calendar day of its timestamp (the date part of
`toISOString()`), not the local date: the bucket keys are exactly the UTC
days of the matching sales, no UTC day occurs twice, and each bucket's amount
is the sum of the amounts of the sales on that UTC day — so two sales on the
same local day can land in different buckets when their UTC days differ. -/
theorem claim_C4_amended (sales : List Sale) :
    ((byDay sales).map Prod.fst).Nodup
    ∧ (∀ p ∈ byDay sales, p.2 = sumOnDay sales p.1)
    ∧ (∀ s ∈ sales, utcDay s.openTime ∈ (byDay sales).map Prod.fst) := by
  have hperm : (byDay sales).Perm (dayGroups sales) :=
    List.perm_insertionSort dayLe (dayGroups sales)
  have hkeys : ((byDay sales).map Prod.fst).Perm ((dayGroups sales).map Prod.fst) :=
    hperm.map Prod.fst
  refine ⟨?_, ?_, ?_⟩
  · exact hkeys.nodup_iff.mpr (dayGroups_keys_nodup sales)
  · intro p hp
    have hpg : p ∈ dayGroups sales := hperm.mem_iff.mp hp
    have hval : valueAt (dayGroups sales) p.1 = some p.2 :=
      valueAt_of_mem _ _ hpg (dayGroups_keys_nodup sales)
    exact dayFold_absent sales [] p.1 p.2 (by simp [valueAt]) hval
  · intro s hs
    exact hkeys.mem_iff.mpr (dayGroups_keys_complete sales s hs)

/-- Witness for the amended claim C4 at the two concrete sales of the
counterexample. -/
theorem claim_C4_amended_witness :
    (∀ p ∈ byDay [saleLate, saleEarly], p.2 = sumOnDay [saleLate, saleEarly] p.1)
    ∧ utcDay saleLate.openTime ∈ (byDay [saleLate, saleEarly]).map Prod.fst := by
  have h := claim_C4_amended [saleLate, saleEarly]
  exact ⟨h.2.1, h.2.2 saleLate (by decide)⟩

/-! ## Dish-summary grouping lemmas for the daily report -/

theorem addDish_valueAt_self (m : List (String × DishAgg)) (it : DailyItem) :
    valueAt (addDish m it) it.dishName
      = some (match valueAt m it.dishName with
          | some g => ⟨it.category, g.quantity + it.quantity, g.amount + it.amount⟩
          | none => ⟨it.category, it.quantity, it.amount⟩) := by
  induction m with
  | nil => simp [addDish, valueAt, List.find?]
  | cons q rest ih =>
    obtain ⟨k, agg⟩ := q
    by_cases hk : k = it.dishName
    · subst hk
      simp [addDish, valueAt, List.find?]
    · simpa [addDish, hk, valueAt, List.find?] using ih

theorem addDish_valueAt_ne (m : List (String × DishAgg)) (it : DailyItem) (k : String)
    (h : k ≠ it.dishName) : valueAt (addDish m it) k = valueAt m k := by
  induction m with
  | nil => simp [addDish, valueAt, List.find?, Ne.symm h]
  | cons q rest ih =>
    obtain ⟨k', agg⟩ := q
    by_cases hk : k' = it.dishName
    · subst hk
      have hne : (it.dishName = k) = False := eq_false (fun hk2 => h hk2.symm)
      simp [addDish, valueAt, List.find?, hne]
    · by_cases hkk : k' = k
      · subst hkk
        simp [addDish, hk, valueAt, List.find?]
      · simpa [addDish, hk, valueAt, List.find?, hkk] using ih

theorem addDish_keys (m : List (String × DishAgg)) (it : DailyItem) :
    (addDish m it).map Prod.fst
      = if it.dishName ∈ m.map Prod.fst then m.map Prod.fst
        else m.map Prod.fst ++ [it.dishName] := by
  induction m with
  | nil => simp [addDish]
  | cons q rest ih =>
    obtain ⟨k', agg⟩ := q
    by_cases hk : k' = it.dishName
    · subst hk
      simp [addDish]
    · by_cases hmem : it.dishName ∈ rest.map Prod.fst
      · simp [addDish, hk, ih, hmem, Ne.symm hk]
      · simp [addDish, hk, ih, hmem, Ne.symm hk]

theorem addDish_keys_nodup (m : List (String × DishAgg)) (it : DailyItem)
    (h : (m.map Prod.fst).Nodup) : ((addDish m it).map Prod.fst).Nodup := by
  rw [addDish_keys]
  by_cases hmem : it.dishName ∈ m.map Prod.fst
  · simpa [hmem] using h
  · simp only [hmem, if_false]
    exact List.Nodup.append h (List.nodup_singleton it.dishName)
      (by simpa [List.disjoint_singleton] using hmem)

theorem sumAmountOnDish_cons (it : DailyItem) (items : List DailyItem) (k : String) :
    sumAmountOnDish (it :: items) k
      = (if it.dishName = k then it.amount else 0) + sumAmountOnDish items k := by
  by_cases h : it.dishName = k <;> simp [sumAmountOnDish, h]

theorem sumQuantityOnDish_cons (it : DailyItem) (items : List DailyItem) (k : String) :
    sumQuantityOnDish (it :: items) k
      = (if it.dishName = k then it.quantity else 0) + sumQuantityOnDish items k := by
  by_cases h : it.dishName = k <;> simp [sumQuantityOnDish, h]

theorem dishFold_present (items : List DailyItem) (m : List (String × DishAgg))
    (k : String) (g : DishAgg) (h : valueAt m k = some g) :
    ∃ g2 : DishAgg, valueAt (items.foldl addDish m) k = some g2
      ∧ g2.amount = g.amount + sumAmountOnDish items k
      ∧ g2.quantity = g.quantity + sumQuantityOnDish items k := by
  induction items generalizing m g with
  | nil =>
    refine ⟨g, by simpa using h, ?_, ?_⟩ <;> simp [sumAmountOnDish, sumQuantityOnDish]
  | cons it rest ih =>
    rw [List.foldl_cons]
    by_cases hit : it.dishName = k
    · have hstep : valueAt (addDish m it) k
          = some ⟨it.category, g.quantity + it.quantity, g.amount + it.amount⟩ := by
        rw [← hit, addDish_valueAt_self, hit, h]
      obtain ⟨g2, hg2, ha2, hq2⟩ := ih _ _ hstep
      refine ⟨g2, hg2, ?_, ?_⟩
      · rw [ha2, sumAmountOnDish_cons, if_pos hit]; ring
      · rw [hq2, sumQuantityOnDish_cons, if_pos hit]; ring
    · have hstep : valueAt (addDish m it) k = some g := by
        rw [addDish_valueAt_ne _ _ _ (fun hk => hit hk.symm), h]
      obtain ⟨g2, hg2, ha2, hq2⟩ := ih _ _ hstep
      refine ⟨g2, hg2, ?_, ?_⟩
      · rw [ha2, sumAmountOnDish_cons, if_neg hit, zero_add]
      · rw [hq2, sumQuantityOnDish_cons, if_neg hit, zero_add]

theorem dishFold_absent (items : List DailyItem) (m : List (String × DishAgg))
    (k : String) (g2 : DishAgg) (h : valueAt m k = none)
    (hv : valueAt (items.foldl addDish m) k = some g2) :
    g2.amount = sumAmountOnDish items k ∧ g2.quantity = sumQuantityOnDish items k := by
  induction items generalizing m with
  | nil => rw [List.foldl_nil, h] at hv; cases hv
  | cons it rest ih =>
    rw [List.foldl_cons] at hv
    by_cases hit : it.dishName = k
    · have hstep : valueAt (addDish m it) k
          = some ⟨it.category, it.quantity, it.amount⟩ := by
        rw [← hit, addDish_valueAt_self, hit, h]
      obtain ⟨g3, hg3, ha3, hq3⟩ := dishFold_present rest _ _ _ hstep
      rw [hv] at hg3
      have hg23 : g2 = g3 := Option.some.inj hg3
      subst hg23
      constructor
      · rw [ha3, sumAmountOnDish_cons, if_pos hit]
      · rw [hq3, sumQuantityOnDish_cons, if_pos hit]
    · have hstep : valueAt (addDish m it) k = none := by
        rw [addDish_valueAt_ne _ _ _ (fun hk => hit hk.symm), h]
      obtain ⟨ha, hq⟩ := ih _ hstep hv
      constructor
      · rw [ha, sumAmountOnDish_cons, if_neg hit, zero_add]
      · rw [hq, sumQuantityOnDish_cons, if_neg hit, zero_add]

theorem dishSummary_keys_nodup (items : List DailyItem) :
    ((dishSummary items).map Prod.fst).Nodup := by
  have haux : ∀ (l : List DailyItem) (m : List (String × DishAgg)),
      (m.map Prod.fst).Nodup → ((l.foldl addDish m).map Prod.fst).Nodup := by
    intro l
    induction l with
    | nil => intro m h; simpa using h
    | cons it rest ih =>
      intro m h
      exact ih _ (addDish_keys_nodup _ _ h)
  exact haux items [] (by simp)

theorem dailyItems_eq (blocks : List XmlBlock) :
    dailyItems blocks
      = (blocks.filter (fun b => b.getField "DishName" ≠ "")).map dailyItemOf := by
  induction blocks with
  | nil => rfl
  | cons b rest ih =>
    by_cases h : b.getField "DishName" ≠ ""
    · simp [dailyItems, List.filterMap_cons, h, List.filter_cons] at ih ⊢
      exact ih
    · simp [dailyItems, List.filterMap_cons, h, List.filter_cons] at ih ⊢
      exact ih

/-- The daily-report result is determined by the extracted item list. -/
theorem parseDailyReportXml_congr (b1 b2 : List XmlBlock)
    (h : dailyItems b1 = dailyItems b2) :
    parseDailyReportXml b1 = parseDailyReportXml b2 := by
  simp [parseDailyReportXml, h]

/-- Claim C9: in the XML daily-report parser each extracted line item's
amount is taken directly from the single discount-adjusted
`DishDiscountSumInt` field (no gross-minus-discount subtraction), a missing
inner tag yields the empty string and a `0` number rather than an error, and
the returned top-items list is re-aggregated by dish name (each bucket's
amount and quantity are the sums over the items with that dish name), sorted
descending by amount, and capped at 20 entries. -/
theorem claim_C9_daily_report (blocks : List XmlBlock) (b : XmlBlock) (k : String) :
    (dailyItems blocks).map (fun it => it.amount)
        = (blocks.filter (fun b2 => b2.getField "DishName" ≠ "")).map
            (fun b2 => parseNumOr0 (b2.getField "DishDiscountSumInt"))
    ∧ ((∀ p ∈ b, lowerEq p.1 k = false) → b.getField k = "")
    ∧ parseNumOr0 "" = 0
    ∧ (parseDailyReportXml blocks).topItems.Sorted dishGe
    ∧ (parseDailyReportXml blocks).topItems.length ≤ 20
    ∧ (∀ p ∈ (parseDailyReportXml blocks).topItems,
        p.2.amount = sumAmountOnDish (dailyItems blocks) p.1
        ∧ p.2.quantity = sumQuantityOnDish (dailyItems blocks) p.1) := by
  refine ⟨?_, ?_, ?_, ?_, ?_, ?_⟩
  · rw [dailyItems_eq]
    simp [dailyItemOf, List.map_map, Function.comp]
  · intro h
    have hf : b.find? (fun p => lowerEq p.1 k) = none := by
      rw [List.find?_eq_none]
      intro x hx
      simp [h x hx]
    simp [XmlBlock.getField, hf]
  · rfl
  · have hs : (List.insertionSort dishGe (dishSummary (dailyItems blocks))).Sorted
        dishGe := List.sorted_insertionSort dishGe _
    have ht : (topItemsOf (dailyItems blocks)).Sorted dishGe :=
      List.Pairwise.sublist (List.take_sublist _ _) hs
    simpa [parseDailyReportXml] using ht
  · have : (topItemsOf (dailyItems blocks)).length ≤ 20 := by
      simp only [topItemsOf, List.length_take]
      exact min_le_left _ _
    simpa [parseDailyReportXml] using this
  · intro p hp
    simp only [parseDailyReportXml] at hp
    have hsub : p ∈ List.insertionSort dishGe (dishSummary (dailyItems blocks)) :=
      List.take_subset _ _ hp
    have hmem : p ∈ dishSummary (dailyItems blocks) :=
      (List.mem_insertionSort dishGe).mp hsub
    have hval : valueAt (dishSummary (dailyItems blocks)) p.1 = some p.2 :=
      valueAt_of_mem _ _ hmem (dishSummary_keys_nodup _)
    exact dishFold_absent (dailyItems blocks) [] p.1 p.2 (by simp [valueAt]) hval

/-- Witness for claim C9: a block without any dish-name tag reads the field
as the empty string. -/
theorem claim_C9_daily_report_witness :
    XmlBlock.getField [("PayTypes", "Cash")] "DishName" = "" :=
  (claim_C9_daily_report [] [("PayTypes", "Cash")] "DishName").2.1
    (by intro p hp; simp at hp; rw [hp]; decide)

/-- Claim C10: the XML daily-report parser silently drops every data block
whose dish-name field is absent or empty: the whole parse result — items,
item count, totals, and top-items summary — is unchanged when such blocks
are removed from the input, whatever amounts or quantities they carry. -/
theorem claim_C10_empty_dish_name_dropped (blocks : List XmlBlock) :
    parseDailyReportXml blocks
      = parseDailyReportXml (blocks.filter (fun b => b.getField "DishName" ≠ "")) := by
  have hfilter : (blocks.filter (fun b => b.getField "DishName" ≠ "")).filter
        (fun b => b.getField "DishName" ≠ "")
      = blocks.filter (fun b => b.getField "DishName" ≠ "") :=
    List.filter_eq_self.mpr (fun a ha => (List.mem_filter.mp ha).2)
  have h : dailyItems (blocks.filter (fun b => b.getField "DishName" ≠ ""))
      = dailyItems blocks := by
    rw [dailyItems_eq, dailyItems_eq, hfilter]
  exact parseDailyReportXml_congr _ _ h.symm
